import Mathlib

/-!
Verification development for the Boomerang task-orchestration server
(task decomposition, memoizing cache, context isolation, priority queue,
approval gate, subtask manager, results merger).

The JavaScript sources are shallowly embedded: JS strings are Lean
`String`s, JS objects are association lists or records, JS `undefined`
for a possibly-absent numeric field is `Option Nat`, thrown exceptions
are `Except`, and the mutable storage layer is passed explicitly as a
value.  Logging, webhook notification and timestamp formatting are
observational side effects with no influence on the data the theorems
talk about and are omitted.
-/

namespace Boomerang

/-! ## JS string primitives

`charLower` / `strLower` model `String.prototype.toLowerCase` on the
ASCII range (all strings appearing in the sources are ASCII),
`jsTrim` models `String.prototype.trim`, and `strContains` models
`String.prototype.includes`. -/

def charLower (c : Char) : Char :=
  match c with
  | 'A' => 'a' | 'B' => 'b' | 'C' => 'c' | 'D' => 'd' | 'E' => 'e'
  | 'F' => 'f' | 'G' => 'g' | 'H' => 'h' | 'I' => 'i' | 'J' => 'j'
  | 'K' => 'k' | 'L' => 'l' | 'M' => 'm' | 'N' => 'n' | 'O' => 'o'
  | 'P' => 'p' | 'Q' => 'q' | 'R' => 'r' | 'S' => 's' | 'T' => 't'
  | 'U' => 'u' | 'V' => 'v' | 'W' => 'w' | 'X' => 'x' | 'Y' => 'y'
  | 'Z' => 'z' | c => c

def strLower (s : String) : String := ⟨s.data.map charLower⟩

def jsWhitespace (c : Char) : Bool :=
  c = ' ' || c = '\t' || c = '\n' || c = '\r'

def jsTrimList (l : List Char) : List Char :=
  ((l.dropWhile jsWhitespace).reverse.dropWhile jsWhitespace).reverse

def jsTrim (s : String) : String := ⟨jsTrimList s.data⟩

def startsWithChars : List Char → List Char → Bool
  | [], _ => true
  | _ :: _, [] => false
  | p :: ps, c :: cs => p == c && startsWithChars ps cs

def containsChars (pat : List Char) : List Char → Bool
  | [] => startsWithChars pat []
  | c :: cs => startsWithChars pat (c :: cs) || containsChars pat cs

def strContains (s pat : String) : Bool :=
  containsChars pat.data s.data

/-! ## Orchestrator (`tools/orchestrator.js`, both repository variants)

`assessComplexity` is identical in the basic and the enhanced variant;
only the `breakDownTask` threshold differs (`score < 3` in the basic
variant, `score === 1` in the enhanced one).  The source also returns a
`factors` string list used purely for the human-readable report; it is
omitted here. -/

def actionKeywords : List String :=
  ["implement", "create", "build", "design", "refactor", "test", "deploy"]

def keywordCountOf (description : String) : Nat :=
  (actionKeywords.filter (fun k => strContains (strLower description) k)).length

def assessComplexity (description : String) : Nat :=
  min
    (1 + (if description.data.length > 200 then 1 else 0)
       + min (keywordCountOf description) 3
       + (if strContains description " and " || strContains description "," then 1 else 0)
       + (if strContains (strLower description) "file" ||
            strContains (strLower description) "component" then 1 else 0))
    10

structure SubtaskSpec where
  title : String
  description : String
  type : String
  priority : String
  estimatedDuration : String
  deriving DecidableEq, Repr

/-- Candidate subtask list, as produced by `suggestSubtasks` in both
orchestrator variants (the enhanced variant additionally attaches a
`suggestedMode` chosen by `SubtaskModes.selectBestMode`; that field
does not affect which entries are produced and is omitted). -/
def keywordSubtasks (desc : String) : List SubtaskSpec :=
  (if strContains desc "implement" || strContains desc "create" then
    [⟨"Design and Planning", "Analyze requirements and create implementation plan",
      "design", "high", "15-30 minutes"⟩,
     ⟨"Core Implementation", "Implement the main functionality",
      "implementation", "high", "30-60 minutes"⟩]
  else [])
  ++ (if strContains desc "test" then
    [⟨"Testing", "Create and run tests for the implementation",
      "testing", "medium", "15-30 minutes"⟩] else [])
  ++ (if strContains desc "deploy" || strContains desc "build" then
    [⟨"Build and Deployment", "Build the project and handle deployment",
      "deployment", "medium", "10-20 minutes"⟩] else [])

def suggestSubtasks (description : String) : List SubtaskSpec :=
  if (keywordSubtasks (strLower description)).isEmpty then
    [⟨"Task Execution", "Execute the main task requirements",
      "execution", "high", "20-40 minutes"⟩]
  else keywordSubtasks (strLower description)

structure Analysis where
  complexity : Nat
  shouldBreakDown : Bool
  suggestedSubtasks : List SubtaskSpec
  deriving DecidableEq, Repr

/-- Enhanced orchestrator variant: only complexity score 1 is executed
directly, every score of 2 or more is broken down.  The `reason` and
`estimatedTime` report strings of the source are omitted. -/
def breakDownTask (description : String) : Analysis :=
  let complexity := assessComplexity description
  if complexity = 1 then
    ⟨complexity, false, []⟩
  else
    ⟨complexity, true, suggestSubtasks description⟩

/-- Basic orchestrator variant: every score below 3 is executed
directly (`if (complexity.score < 3)`). -/
def breakDownTaskBasic (description : String) : Analysis :=
  let complexity := assessComplexity description
  if complexity < 3 then
    ⟨complexity, false, []⟩
  else
    ⟨complexity, true, suggestSubtasks description⟩

lemma suggestSubtasks_ne_nil (description : String) :
    suggestSubtasks description ≠ [] := by
  unfold suggestSubtasks
  split
  · simp
  · next h => simpa using h

lemma assessComplexity_pos (description : String) :
    1 ≤ assessComplexity description := by
  unfold assessComplexity
  split_ifs <;> omega

lemma assessComplexity_le_ten (description : String) :
    assessComplexity description ≤ 10 := by
  unfold assessComplexity
  split_ifs <;> omega

/-- Specification-side complexity formula, transcribed from the claim
wording: minimum of 10 and (1, plus 1 if the description is longer than
200 characters, plus min(3, number of action keywords present in the
lower-cased description), plus 1 if the description contains the
conjunction marker or a comma, plus 1 if it mentions file or component
manipulation). -/
def specComplexityScore (description : String) : Nat :=
  min 10
    (1 + (if 200 < description.data.length then 1 else 0)
       + min 3 (actionKeywords.countP (fun k => strContains (strLower description) k))
       + (if strContains description " and " || strContains description "," then 1 else 0)
       + (if strContains (strLower description) "file" ||
            strContains (strLower description) "component" then 1 else 0))

/-- C2: for every description the complexity score computed by
`assessComplexity` equals the specification formula (base 1, +1 for
length > 200, + min(3, action-keyword count), +1 for a conjunction
marker or comma, +1 for file/component manipulation, capped at 10),
and the score always lies in [1,10]; the end-to-end example
"Fix typo" scores 1. -/
theorem assessComplexity_matches_spec (description : String) :
    assessComplexity description = specComplexityScore description ∧
    1 ≤ assessComplexity description ∧
    assessComplexity description ≤ 10 ∧
    assessComplexity "Fix typo" = 1 := by
  refine ⟨?_, assessComplexity_pos _, assessComplexity_le_ten _, by decide⟩
  unfold assessComplexity specComplexityScore keywordCountOf
  rw [List.countP_eq_length_filter]
  split_ifs <;> omega

/-- C1 counterexample: the basic orchestrator variant
(`if (complexity.score < 3)`) returns `shouldBreakDown = false` with no
suggested subtasks for the description "implement", whose computed
complexity score is 2 — contradicting the claim that every score ≥ 2
yields `shouldBreakDown = true` with a non-empty subtask list. -/
theorem breakDownTaskBasic_score_two_not_broken_down :
    assessComplexity "implement" = 2 ∧
    (breakDownTaskBasic "implement").shouldBreakDown = false ∧
    (breakDownTaskBasic "implement").suggestedSubtasks = [] := by
  decide

/-- C1 (amended to the enhanced orchestrator variant): the analysis has
`shouldBreakDown = false` and an empty `suggestedSubtasks` list exactly
when the complexity score is 1, and every score ≥ 2 yields
`shouldBreakDown = true` with a non-empty list.  The basic variant
instead executes directly for every score below 3. -/
theorem breakDownTask_enhanced_score_policy (description : String) :
    (((breakDownTask description).shouldBreakDown = false ∧
      (breakDownTask description).suggestedSubtasks = []) ↔
        assessComplexity description = 1) ∧
    (2 ≤ assessComplexity description →
      (breakDownTask description).shouldBreakDown = true ∧
      (breakDownTask description).suggestedSubtasks ≠ []) := by
  unfold breakDownTask
  by_cases h : assessComplexity description = 1
  · simp [h]
  · simp [h, suggestSubtasks_ne_nil description]

/-- C1 witness: the amended policy applied at the concrete description
"implement" (score 2). -/
theorem breakDownTask_enhanced_score_policy_witness :
    2 ≤ assessComplexity "implement" ∧
    (breakDownTask "implement").shouldBreakDown = true ∧
    (breakDownTask "implement").suggestedSubtasks ≠ [] :=
  ⟨by decide, (breakDownTask_enhanced_score_policy "implement").2 (by decide)⟩

/-! ## Priority Queue (`utils/priority-queue.js`)

Three FIFO tiers; `enqueue` validates the priority (typed away here by
the `Priority` inductive), fails closed when the total size reaches
`maxQueueSize`, and builds the queued task by spreading the input task
and attaching priority, `queuedAt`, the tier SLA profile and the merged
options (`{retryOnFailure: true, maxRetries: 3, ...options}`).  The
input task object carries no `retryCount` property when it comes from
`enqueueSubtask`; the spread preserves whatever `retryCount` the input
has, so it is modelled as `Option Nat` (`none` = JS `undefined`).
SLA violation counting and logging at dequeue are observational and
omitted. -/

structure SLAProfile where
  maxWaitTime : Nat
  maxExecutionTime : Nat
  deriving DecidableEq, Repr

inductive Priority where
  | high
  | medium
  | low
  deriving DecidableEq, Repr

def slaConfig : Priority → SLAProfile
  | .high => ⟨30000, 300000⟩
  | .medium => ⟨120000, 600000⟩
  | .low => ⟨600000, 1800000⟩

structure TaskOptions where
  retryOnFailure : Bool
  maxRetries : Nat
  deriving DecidableEq, Repr

/-- Optional per-call overrides of the default enqueue options; the
source merges them as `{retryOnFailure: true, maxRetries: 3, ...options}`. -/
structure EnqOverrides where
  retryOnFailure : Option Bool := none
  maxRetries : Option Nat := none
  deriving DecidableEq, Repr

def mergeOptions (o : EnqOverrides) : TaskOptions :=
  ⟨o.retryOnFailure.getD true, o.maxRetries.getD 3⟩

/-- Task object handed to `enqueue` (`{id, type, executionMode}` from
`enqueueSubtask`, or a previously dequeued task on the retry path). -/
structure TaskIn where
  id : String
  executionMode : String := "simulation"
  retryCount : Option Nat := none
  deriving DecidableEq, Repr

structure QueuedTask where
  id : String
  executionMode : String
  retryCount : Option Nat
  priority : Priority
  queuedAt : Nat
  sla : SLAProfile
  options : TaskOptions
  deriving DecidableEq, Repr

structure PQState where
  high : List QueuedTask := []
  medium : List QueuedTask := []
  low : List QueuedTask := []
  maxQueueSize : Nat := 1000
  deriving DecidableEq, Repr

def pqInit : PQState := {}

def totalSize (st : PQState) : Nat :=
  st.high.length + st.medium.length + st.low.length

def tierOf (st : PQState) : Priority → List QueuedTask
  | .high => st.high
  | .medium => st.medium
  | .low => st.low

def pushTier (st : PQState) (p : Priority) (t : QueuedTask) : PQState :=
  match p with
  | .high => { st with high := st.high ++ [t] }
  | .medium => { st with medium := st.medium ++ [t] }
  | .low => { st with low := st.low ++ [t] }

def enqueue (st : PQState) (task : TaskIn) (p : Priority) (o : EnqOverrides)
    (now : Nat) : Except String (PQState × QueuedTask) :=
  if st.maxQueueSize ≤ totalSize st then
    .error "Queue is full"
  else
    let qt : QueuedTask :=
      ⟨task.id, task.executionMode, task.retryCount, p, now, slaConfig p, mergeOptions o⟩
    .ok (pushTier st p qt, qt)

/-- Dequeue drains `high` before `medium` before `low`, shifting the
oldest task of the first non-empty tier. -/
def dequeue (st : PQState) : Option (QueuedTask × PQState) :=
  match st.high with
  | t :: rest => some (t, { st with high := rest })
  | [] =>
    match st.medium with
    | t :: rest => some (t, { st with medium := rest })
    | [] =>
      match st.low with
      | t :: rest => some (t, { st with low := rest })
      | [] => none

/-- Repeated dequeue until the queue reports empty; `totalSize` steps
always suffice because each successful dequeue removes one task. -/
def dequeueAllFuel : Nat → PQState → List QueuedTask
  | 0, _ => []
  | fuel + 1, st =>
    match dequeue st with
    | none => []
    | some (t, st2) => t :: dequeueAllFuel fuel st2

def dequeueAll (st : PQState) : List QueuedTask :=
  dequeueAllFuel (totalSize st) st

lemma dequeueAllFuel_eq (n : Nat) :
    ∀ st : PQState, totalSize st ≤ n →
      dequeueAllFuel n st = st.high ++ st.medium ++ st.low := by
  induction n with
  | zero =>
    intro st h
    obtain ⟨hi, me, lo, mx⟩ := st
    simp only [totalSize] at h
    have h1 : hi = [] := List.eq_nil_of_length_eq_zero (by omega)
    have h2 : me = [] := List.eq_nil_of_length_eq_zero (by omega)
    have h3 : lo = [] := List.eq_nil_of_length_eq_zero (by omega)
    subst h1; subst h2; subst h3
    simp [dequeueAllFuel]
  | succ n ih =>
    intro st h
    obtain ⟨hi, me, lo, mx⟩ := st
    cases hi with
    | cons t rest =>
      simp only [dequeueAllFuel, dequeue]
      rw [ih ⟨rest, me, lo, mx⟩ (by simp only [totalSize, List.length_cons, List.length_nil] at h ⊢; omega)]
      simp
    | nil =>
      cases me with
      | cons t rest =>
        simp only [dequeueAllFuel, dequeue]
        rw [ih ⟨[], rest, lo, mx⟩ (by simp only [totalSize, List.length_cons, List.length_nil] at h ⊢; omega)]
        simp
      | nil =>
        cases lo with
        | cons t rest =>
          simp only [dequeueAllFuel, dequeue]
          rw [ih ⟨[], [], rest, mx⟩ (by simp only [totalSize, List.length_cons, List.length_nil] at h ⊢; omega)]
          simp
        | nil => simp [dequeueAllFuel, dequeue]

lemma dequeueAll_drain (st : PQState) :
    dequeueAll st = st.high ++ st.medium ++ st.low :=
  dequeueAllFuel_eq (totalSize st) st (le_refl _)

/-- C5: dequeue drains tiers strictly in order high, medium, low, each
tier first-in-first-out: draining any queue state yields exactly the
high list, then the medium list, then the low list (each tier list is
in enqueue order because `enqueue` appends at the back); and the
concrete scenario — one high, two medium, one low item enqueued in that
relative order into an empty queue — dequeues as
[high, medium#1, medium#2, low]. -/
theorem dequeue_priority_order :
    (∀ st : PQState, dequeueAll st = st.high ++ st.medium ++ st.low) ∧
    (∀ st task p o now st2 qt,
      enqueue st task p o now = .ok (st2, qt) →
        tierOf st2 p = tierOf st p ++ [qt]) ∧
    ((do
        let r1 ← enqueue pqInit ⟨"hi", "simulation", none⟩ .high {} 0
        let r2 ← enqueue r1.1 ⟨"m1", "simulation", none⟩ .medium {} 1
        let r3 ← enqueue r2.1 ⟨"m2", "simulation", none⟩ .medium {} 2
        let r4 ← enqueue r3.1 ⟨"lo", "simulation", none⟩ .low {} 3
        pure ((dequeueAll r4.1).map (fun t => t.id)) :
          Except String (List String)) = .ok ["hi", "m1", "m2", "lo"]) := by
  refine ⟨dequeueAll_drain, ?_, ?_⟩
  · intro st task p o now st2 qt h
    unfold enqueue at h
    split at h
    · exact absurd h (by simp)
    · cases p <;>
      · simp only [pushTier, Except.ok.injEq, Prod.mk.injEq] at h
        obtain ⟨h1, h2⟩ := h
        subst h1
        subst h2
        simp [tierOf]
  · rfl

/-- C5 witness: the enqueue-appends-at-the-back clause applied at a
concrete enqueue into the empty queue. -/
theorem dequeue_priority_order_witness :
    ∃ st2 qt,
      enqueue pqInit ⟨"hi", "simulation", none⟩ .high {} 0 = .ok (st2, qt) ∧
      tierOf st2 .high = tierOf pqInit .high ++ [qt] := by
  have h : enqueue pqInit ⟨"hi", "simulation", none⟩ .high {} 0 =
      .ok (⟨[⟨"hi", "simulation", none, .high, 0, ⟨30000, 300000⟩, ⟨true, 3⟩⟩],
            [], [], 1000⟩,
          ⟨"hi", "simulation", none, .high, 0, ⟨30000, 300000⟩, ⟨true, 3⟩⟩) := by rfl
  exact ⟨_, _, h, dequeue_priority_order.2.1 pqInit _ .high {} 0 _ _ h⟩

/-! ## Subtask Manager queue worker (`tools/subtask-manager.js`)

`processQueuedTask` executes a dequeued task; on failure it re-enqueues
when `queuedTask.options.retryOnFailure && queuedTask.retryCount <
queuedTask.options.maxRetries`.  `queuedTask.retryCount` is a top-level
property that `enqueue` never initialises, so on the first failure it
is JS `undefined`, and `undefined < n` evaluates to `false` (NaN
comparison).  `jsUndefLt` models that comparison. -/

def jsUndefLt (a : Option Nat) (b : Nat) : Bool :=
  match a with
  | none => false
  | some k => decide (k < b)

def retryDecision (qt : QueuedTask) : Bool :=
  qt.options.retryOnFailure && jsUndefLt qt.retryCount qt.options.maxRetries

def toTaskIn (qt : QueuedTask) : TaskIn :=
  ⟨qt.id, qt.executionMode, qt.retryCount⟩

/-- Failure branch of `processQueuedTask`: when the retry condition
holds, the task is re-enqueued under the same priority with an
incremented `retryCount` and a reset `queuedAt` (the re-enqueue call
passes no options, so the merged defaults apply again); otherwise the
task is dropped and its subtask stays `failed`.  The boolean reports
whether a re-enqueue happened.  A full-queue throw during the
re-enqueue would propagate to the worker loop's error logger without
re-enqueueing; that is also reported as `false`. -/
def processQueuedTaskOnFailure (st : PQState) (qt : QueuedTask) (now : Nat) :
    PQState × Bool :=
  if retryDecision qt then
    let qt2 : QueuedTask :=
      { qt with retryCount := some (qt.retryCount.getD 0 + 1), queuedAt := now }
    match enqueue st (toTaskIn qt2) qt2.priority {} now with
    | .ok (st2, _) => (st2, true)
    | .error _ => (st, false)
  else
    (st, false)

/-- C7: a task freshly placed on the queue (whose object carries no
`retryCount` property) is never re-enqueued on failure, whatever
`maxRetries` was configured: the guard compares JS `undefined` with
`maxRetries`, which is always false.  The code therefore performs zero
retries where the specification promises exactly `maxRetries`. -/
theorem fresh_queued_task_never_retried (st st2 : PQState) (sid em : String)
    (p : Priority) (o : EnqOverrides) (now now2 : Nat) (qt : QueuedTask)
    (h : enqueue st ⟨sid, em, none⟩ p o now = .ok (st2, qt)) :
    retryDecision qt = false ∧
    processQueuedTaskOnFailure st2 qt now2 = (st2, false) := by
  unfold enqueue at h
  split at h
  · exact absurd h (by simp)
  · simp only [Except.ok.injEq, Prod.mk.injEq] at h
    obtain ⟨h1, h2⟩ := h
    subst h2
    have hr : retryDecision
        ⟨sid, em, none, p, now, slaConfig p, mergeOptions o⟩ = false := by
      simp [retryDecision, jsUndefLt]
    refine ⟨hr, ?_⟩
    unfold processQueuedTaskOnFailure
    rw [hr]
    simp

/-- C7 witness: the exact scenario of the claim — retryOnFailure true,
maxRetries 2, execution always failing — yields no re-enqueue at all. -/
theorem fresh_queued_task_never_retried_witness :
    ∃ st2 qt,
      enqueue pqInit ⟨"s1", "simulation", none⟩ .medium ⟨none, some 2⟩ 0 =
        .ok (st2, qt) ∧
      qt.options.retryOnFailure = true ∧
      qt.options.maxRetries = 2 ∧
      retryDecision qt = false ∧
      processQueuedTaskOnFailure st2 qt 5 = (st2, false) := by
  have h : enqueue pqInit ⟨"s1", "simulation", none⟩ .medium ⟨none, some 2⟩ 0 =
      .ok (⟨[], [⟨"s1", "simulation", none, .medium, 0, ⟨120000, 600000⟩, ⟨true, 2⟩⟩],
            [], 1000⟩,
          ⟨"s1", "simulation", none, .medium, 0, ⟨120000, 600000⟩, ⟨true, 2⟩⟩) := by rfl
  obtain ⟨hr, hp⟩ :=
    fresh_queued_task_never_retried pqInit _ "s1" "simulation" .medium
      ⟨none, some 2⟩ 0 5 _ h
  exact ⟨_, _, h, rfl, rfl, hr, hp⟩

/-! ## Context Isolation (`utils/context-isolation.js`, enhanced variant)

`sanitizePassedData` walks the passed-data object; a key whose
lower-cased name contains one of the entries of `sensitiveKeys` has its
value replaced by the redaction marker, a non-null object value is
recursed into, any other value is kept.  JS values are modelled by the
mutual inductives `PVal` (string / number / boolean / object) and
`PFields` (the ordered fields of an object). -/

mutual
inductive PVal where
  | str (s : String)
  | num (n : Int)
  | boolean (b : Bool)
  | obj (fields : PFields)

inductive PFields where
  | nil
  | cons (key : String) (value : PVal) (rest : PFields)
end

/-- Sensitive-name markers, exactly as listed in the source:
`['password', 'apiKey', 'secret', 'token', 'credentials']` — note the
mixed-case `apiKey` entry. -/
def sensitiveKeys : List String :=
  ["password", "apiKey", "secret", "token", "credentials"]

/-- Source guard `sensitiveKeys.some(sensitive =>
key.toLowerCase().includes(sensitive))`: only the key is lower-cased,
the marker is used verbatim. -/
def keyIsSensitive (key : String) : Bool :=
  sensitiveKeys.any (fun marker => strContains (strLower key) marker)

mutual
def sanitizeVal : PVal → PVal
  | .obj fs => .obj (sanitizeFields fs)
  | .str s => .str s
  | .num n => .num n
  | .boolean b => .boolean b

def sanitizeFields : PFields → PFields
  | .nil => .nil
  | .cons k v rest =>
    if keyIsSensitive k then .cons k (.str "[REDACTED]") (sanitizeFields rest)
    else .cons k (sanitizeVal v) (sanitizeFields rest)
end

def sanitizePassedData (fields : PFields) : PFields :=
  sanitizeFields fields

/-- C4: the sanitizer misses API keys.  The key "apiKey"
case-insensitively contains the sensitive marker "apiKey" (their
lower-casings coincide), yet `keyIsSensitive` rejects it — the source
compares the lower-cased key against the verbatim mixed-case marker
`'apiKey'`, which can never occur in a lower-cased string — so the raw
secret value survives sanitization, violating the claim.  Markers
without upper-case letters (for example "password") are redacted. -/
theorem sanitizePassedData_keeps_raw_apiKey :
    strContains (strLower "apiKey") (strLower "apiKey") = true ∧
    keyIsSensitive "apiKey" = false ∧
    sanitizePassedData (.cons "apiKey" (.str "hunter2") .nil) =
      .cons "apiKey" (.str "hunter2") .nil ∧
    sanitizePassedData
        (.cons "data" (.obj (.cons "API_KEY" (.str "hunter2") .nil)) .nil) =
      .cons "data" (.obj (.cons "API_KEY" (.str "hunter2") .nil)) .nil ∧
    sanitizePassedData (.cons "password" (.str "hunter2") .nil) =
      .cons "password" (.str "[REDACTED]") .nil := by
  refine ⟨rfl, by decide, ?_, ?_, ?_⟩ <;>
    simp [sanitizePassedData, sanitizeFields, sanitizeVal, keyIsSensitive,
      sensitiveKeys, strContains, strLower, charLower, containsChars,
      startsWithChars]

/-! ## Task Store records

The file-per-id storage layer (`utils/storage.js`) is a key→record
mapping; it is modelled as association lists with `saveAssoc` as the
write-at-key operation.  `TaskRec` carries the union of the fields the
claims touch for parent tasks and subtasks (JS stores both in the same
namespace); `TaskResults` is the execution-results object
(`executionTime` is stored as the string `"<n>ms"` in the source and
read back with `parseInt`; it is modelled directly as the number `n`,
`none` when the field is absent). -/

structure TaskResults where
  keyOutputs : List String := []
  filesModified : List String := []
  recommendations : List String := []
  executionTime : Option Nat := none
  deriving DecidableEq, Repr

/-- Entry of `combined.subtaskSummaries` built by
`ResultsMerger.combineResults` (`{id, title, type, status, summary}`;
the `summary` object is an opaque passthrough modelled as a string). -/
structure SubtaskSummaryRec where
  id : String
  title : String
  type : String
  status : String
  summary : Option String
  deriving DecidableEq, Repr

structure Combined where
  allKeyOutputs : List String
  allFilesModified : List String
  allRecommendations : List String
  totalExecutionTime : Nat
  subtaskSummaries : List SubtaskSummaryRec
  deriving DecidableEq, Repr

structure FinalSummary where
  taskId : String
  originalDescription : String
  completionStatus : String
  overallSuccess : Bool
  keyAchievements : List String
  filesAffected : Nat
  recommendationsCount : Nat
  totalExecutionTime : Nat
  nextSteps : List String
  deriving DecidableEq, Repr

structure TaskRec where
  id : String
  title : String := ""
  description : String := ""
  analysis : Option Analysis := none
  taskType : String := ""
  priority : String := "medium"
  status : String := "created"
  approvalStatus : String := "pending"
  approvalReason : String := ""
  subtasks : List String := []
  results : Option TaskResults := none
  summary : Option String := none
  mergedResults : Option Combined := none
  finalSummary : Option FinalSummary := none
  deriving DecidableEq, Repr

structure ApprovalRec where
  id : String
  subtaskId : String
  approvalType : String := "creation"
  status : String := "pending"
  approvedBy : Option String := none
  approvedAt : Option Nat := none
  reason : Option String := none
  deriving DecidableEq, Repr

structure Store where
  tasks : List (String × TaskRec) := []
  approvals : List (String × ApprovalRec) := []
  deriving DecidableEq, Repr

def saveAssoc {κ α : Type} [BEq κ] : List (κ × α) → κ → α → List (κ × α)
  | [], k, v => [(k, v)]
  | (k0, v0) :: rest, k, v =>
    if k0 == k then (k, v) :: rest else (k0, v0) :: saveAssoc rest k v

lemma lookup_saveAssoc_self {κ α : Type} [BEq κ] [LawfulBEq κ]
    (l : List (κ × α)) (k : κ) (v : α) :
    List.lookup k (saveAssoc l k v) = some v := by
  induction l with
  | nil => simp [saveAssoc, List.lookup]
  | cons hd tl ih =>
    obtain ⟨k0, v0⟩ := hd
    by_cases h : k0 = k
    · simp [saveAssoc, h, List.lookup]
    · simp only [saveAssoc, beq_iff_eq, h, if_false, List.lookup]
      have : (k == k0) = false := by
        simp [beq_eq_false_iff_ne]
        exact fun hk => h hk.symm
      simp [this, ih]

/-! ## Approval Gate (`tools/approval-system.js`)

`processApproval(approvalId, decision, approvedBy, reason)`: loads the
request (NotFound error if the id does not resolve), throws before any
write when the request is no longer pending, otherwise finalises the
request (status := decision, approvedBy/approvedAt/reason), persists
it, and — only if the referenced subtask still resolves — updates the
subtask's `approvalStatus`/`approvalReason` and sets its `status` to
`approved` when the decision is `"approved"` and to `rejected`
otherwise.  The in-memory `pendingApprovals` map and the webhook
notifications are observational and omitted. -/

def processApproval (st : Store) (approvalId decision approvedBy reason : String)
    (now : Nat) : Except String ApprovalRec × Store :=
  match List.lookup approvalId st.approvals with
  | none => (.error ("Approval request " ++ approvalId ++ " not found"), st)
  | some approval =>
    if approval.status ≠ "pending" then
      (.error ("Approval request " ++ approvalId ++ " is already " ++ approval.status), st)
    else
      let approval2 : ApprovalRec :=
        { approval with
          status := decision
          approvedBy := some approvedBy
          approvedAt := some now
          reason := some reason }
      let st2 : Store := { st with approvals := saveAssoc st.approvals approvalId approval2 }
      match List.lookup approval.subtaskId st2.tasks with
      | some subtask =>
        let subtask2 : TaskRec :=
          { subtask with
            approvalStatus := decision
            approvalReason := reason
            status := if decision == "approved" then "approved" else "rejected" }
        (.ok approval2, { st2 with tasks := saveAssoc st2.tasks approval.subtaskId subtask2 })
      | none => (.ok approval2, st2)

/-- C6: approval decisions are terminal and propagate in lockstep.  If
the loaded request is no longer pending, `processApproval` fails with
an error and the store (both the request and every task record) is
returned unchanged.  If it is pending, the request's status becomes the
decision and, when the referenced subtask resolves, the subtask's
`approvalStatus` equals the decision while its `status` becomes
`approved` for an `"approved"` decision and `rejected` for a
`"rejected"` one. -/
theorem processApproval_terminal_lockstep (st : Store)
    (aid decision approvedBy reason : String) (now : Nat) (a : ApprovalRec)
    (ha : List.lookup aid st.approvals = some a) :
    (a.status ≠ "pending" →
      processApproval st aid decision approvedBy reason now =
        (.error ("Approval request " ++ aid ++ " is already " ++ a.status), st)) ∧
    (a.status = "pending" →
      ∃ a2 st2,
        processApproval st aid decision approvedBy reason now = (.ok a2, st2) ∧
        a2.status = decision ∧
        List.lookup aid st2.approvals = some a2 ∧
        (∀ s, List.lookup a.subtaskId st.tasks = some s →
          ∃ s2, List.lookup a.subtaskId st2.tasks = some s2 ∧
            s2.approvalStatus = decision ∧
            (decision = "approved" → s2.status = "approved") ∧
            (decision = "rejected" → s2.status = "rejected"))) := by
  constructor
  · intro hne
    simp only [processApproval, ha]
    rw [if_pos hne]
  · intro hpend
    simp only [processApproval, ha]
    rw [if_neg (show ¬(a.status ≠ "pending") from by simp [hpend])]
    cases hs : List.lookup a.subtaskId st.tasks with
    | some s =>
      refine ⟨_, _, rfl, rfl, ?_, ?_⟩
      · exact lookup_saveAssoc_self _ _ _
      · intro s0 hs0
        refine ⟨_, lookup_saveAssoc_self _ _ _, rfl, ?_, ?_⟩
        · intro hd; simp [hd]
        · intro hd; simp [hd]
    | none =>
      refine ⟨_, _, rfl, rfl, ?_, ?_⟩
      · exact lookup_saveAssoc_self _ _ _
      · intro s0 hs0
        exact absurd hs0.symm (Option.some_ne_none s0)

def wSubtask : TaskRec := { id := "t1", title := "subtask one" }

def wApproval : ApprovalRec := { id := "a1", subtaskId := "t1" }

def wStore : Store :=
  { tasks := [("t1", wSubtask)], approvals := [("a1", wApproval)] }

/-- C6 witness: a pending request over an existing subtask, approved at
a concrete store. -/
theorem processApproval_terminal_lockstep_witness :
    ∃ a2 st2,
      processApproval wStore "a1" "approved" "alice" "looks good" 42 = (.ok a2, st2) ∧
      a2.status = "approved" ∧
      ∃ s2, List.lookup "t1" st2.tasks = some s2 ∧
        s2.approvalStatus = "approved" ∧ s2.status = "approved" := by
  obtain ⟨a2, st2, h1, h2, -, h4⟩ :=
    (processApproval_terminal_lockstep wStore "a1" "approved" "alice"
      "looks good" 42 wApproval rfl).2 rfl
  obtain ⟨s2, g1, g2, g3, -⟩ := h4 wSubtask rfl
  exact ⟨a2, st2, h1, h2, s2, g1, g2, g3 rfl⟩

/-- C10: a pending request whose referenced subtask id no longer
resolves is still processed successfully: the finalised request (status
:= decision) is persisted and returned, the task map is left untouched,
and no NotFound error is raised for the missing subtask. -/
theorem processApproval_missing_subtask_silently_skipped (st : Store)
    (aid decision approvedBy reason : String) (now : Nat) (a : ApprovalRec)
    (ha : List.lookup aid st.approvals = some a)
    (hpend : a.status = "pending")
    (hmiss : List.lookup a.subtaskId st.tasks = none) :
    processApproval st aid decision approvedBy reason now =
      (.ok { a with
               status := decision
               approvedBy := some approvedBy
               approvedAt := some now
               reason := some reason },
       { st with
           approvals := saveAssoc st.approvals aid
             { a with
                 status := decision
                 approvedBy := some approvedBy
                 approvedAt := some now
                 reason := some reason } }) ∧
    (processApproval st aid decision approvedBy reason now).2.tasks = st.tasks := by
  have h : processApproval st aid decision approvedBy reason now =
      (.ok { a with
               status := decision
               approvedBy := some approvedBy
               approvedAt := some now
               reason := some reason },
       { st with
           approvals := saveAssoc st.approvals aid
             { a with
                 status := decision
                 approvedBy := some approvedBy
                 approvedAt := some now
                 reason := some reason } }) := by
    simp only [processApproval, ha, hmiss]
    rw [if_neg (show ¬(a.status ≠ "pending") from by simp [hpend])]
  exact ⟨h, by rw [h]⟩

def wOrphanStore : Store := { tasks := [], approvals := [("a1", wApproval)] }

/-- C10 witness: processing a pending request whose subtask "t1" is
absent from the store. -/
theorem processApproval_missing_subtask_silently_skipped_witness :
    processApproval wOrphanStore "a1" "rejected" "bob" "nope" 7 =
      (.ok { wApproval with
               status := "rejected"
               approvedBy := some "bob"
               approvedAt := some 7
               reason := some "nope" },
       { wOrphanStore with
           approvals := saveAssoc wOrphanStore.approvals "a1"
             { wApproval with
                 status := "rejected"
                 approvedBy := some "bob"
                 approvedAt := some 7
                 reason := some "nope" } }) ∧
    (processApproval wOrphanStore "a1" "rejected" "bob" "nope" 7).2.tasks =
      wOrphanStore.tasks :=
  processApproval_missing_subtask_silently_skipped wOrphanStore "a1" "rejected"
    "bob" "nope" 7 wApproval rfl rfl rfl

/-! ## Results Merger (`tools/results-merger.js`)

`mergeSubtaskResults` loads the parent (NotFound error otherwise),
keeps only the listed subtasks that resolve with status `completed`,
concatenates their key outputs / modified files / recommendations
(modified files afterwards de-duplicated via `[...new Set(...)]`, which
keeps first occurrences), sums the parsed execution times, generates
the final summary, then persists the parent as `completed` with the
merged results attached. -/

def combineStep (acc : Combined) (s : TaskRec) : Combined :=
  let acc2 : Combined :=
    match s.results with
    | some r =>
      { acc with
        allKeyOutputs := acc.allKeyOutputs ++ r.keyOutputs
        allFilesModified := acc.allFilesModified ++ r.filesModified
        allRecommendations := acc.allRecommendations ++ r.recommendations
        totalExecutionTime := acc.totalExecutionTime + r.executionTime.getD 0 }
    | none => acc
  { acc2 with
    subtaskSummaries :=
      acc2.subtaskSummaries ++ [⟨s.id, s.title, s.taskType, s.status, s.summary⟩] }

/-- JS `[...new Set(list)]`: first occurrence of each element is kept,
in encounter order. -/
def dedupKeepFirstAux (seen : List String) : List String → List String
  | [] => []
  | a :: rest =>
    if a ∈ seen then dedupKeepFirstAux seen rest
    else a :: dedupKeepFirstAux (a :: seen) rest

def dedupKeepFirst (l : List String) : List String :=
  dedupKeepFirstAux [] l

def combineResults (subtaskResults : List TaskRec) : Combined :=
  let c := subtaskResults.foldl combineStep ⟨[], [], [], 0, []⟩
  { c with allFilesModified := dedupKeepFirst c.allFilesModified }

def extractKeyAchievements (m : Combined) : List String :=
  (if m.allKeyOutputs.length > 0 then
    ["Generated " ++ toString m.allKeyOutputs.length ++ " key outputs"] else [])
  ++ (if m.allFilesModified.length > 0 then
    ["Modified " ++ toString m.allFilesModified.length ++ " files"] else [])
  ++ (if (m.allKeyOutputs.filter (fun o =>
        strContains (strLower o) "design" ||
        strContains (strLower o) "architecture")).length > 0 then
    ["Completed design and architecture phase"] else [])
  ++ (if (m.allKeyOutputs.filter (fun o =>
        strContains (strLower o) "implement" ||
        strContains (strLower o) "functionality")).length > 0 then
    ["Completed core implementation"] else [])
  ++ (if (m.allKeyOutputs.filter (fun o =>
        strContains (strLower o) "test" ||
        strContains (strLower o) "coverage")).length > 0 then
    ["Completed testing phase"] else [])

def suggestNextSteps (m : Combined) : List String :=
  (if m.allRecommendations.length > 0 then
    ["Review and implement recommendations from subtasks"] else [])
  ++ (if m.allFilesModified.length > 0 then
    ["Verify all file modifications are correct",
     "Run tests to ensure no regressions"] else [])
  ++ (if (m.subtaskSummaries.any (fun s => s.type == "implementation")) &&
        !(m.subtaskSummaries.any (fun s => s.type == "testing")) then
    ["Consider adding comprehensive tests"] else [])
  ++ ["Document the changes and update project documentation",
      "Consider deployment or next iteration planning"]

def generateFinalSummary (parentTask : TaskRec) (subtaskResults : List TaskRec)
    (m : Combined) : FinalSummary :=
  let completedCount := subtaskResults.length
  let totalCount := parentTask.subtasks.length
  { taskId := parentTask.id
    originalDescription := parentTask.description
    completionStatus :=
      toString completedCount ++ "/" ++ toString totalCount ++ " subtasks completed"
    overallSuccess := completedCount == totalCount
    keyAchievements := extractKeyAchievements m
    filesAffected := m.allFilesModified.length
    recommendationsCount := m.allRecommendations.length
    totalExecutionTime := m.totalExecutionTime
    nextSteps := suggestNextSteps m }

/-- Listed subtasks that resolve in the store with status `completed`,
in list order (the filtering loop of `mergeSubtaskResults`). -/
def completedSubtasksOf (tasks : List (String × TaskRec)) (parent : TaskRec) :
    List TaskRec :=
  parent.subtasks.filterMap (fun sid =>
    match List.lookup sid tasks with
    | some s => if s.status == "completed" then some s else none
    | none => none)

structure MergeOutput where
  parentTask : TaskRec
  mergedResults : Combined
  finalSummary : FinalSummary
  subtaskCount : Nat
  deriving DecidableEq, Repr

def mergeSubtaskResults (st : Store) (parentTaskId : String) :
    Except String (MergeOutput × Store) :=
  match List.lookup parentTaskId st.tasks with
  | none => .error ("Parent task " ++ parentTaskId ++ " not found")
  | some parent =>
    let subtaskResults := completedSubtasksOf st.tasks parent
    let merged := combineResults subtaskResults
    let final := generateFinalSummary parent subtaskResults merged
    let parent2 : TaskRec :=
      { parent with
        status := "completed"
        mergedResults := some merged
        finalSummary := some final }
    .ok (⟨parent2, merged, final, subtaskResults.length⟩,
         { st with tasks := saveAssoc st.tasks parentTaskId parent2 })

/-- Per-subtask contribution to `totalExecutionTime`: the parsed
execution time when a results object is present, otherwise nothing. -/
def execTimeContribution (s : TaskRec) : Nat :=
  match s.results with
  | some r => r.executionTime.getD 0
  | none => 0

lemma combineStep_totalExecutionTime (acc : Combined) (s : TaskRec) :
    (combineStep acc s).totalExecutionTime =
      acc.totalExecutionTime + execTimeContribution s := by
  unfold combineStep execTimeContribution
  cases s.results <;> simp

lemma foldl_combineStep_totalExecutionTime (l : List TaskRec) :
    ∀ acc : Combined,
      (l.foldl combineStep acc).totalExecutionTime =
        acc.totalExecutionTime + (l.map execTimeContribution).sum := by
  induction l with
  | nil => intro acc; simp
  | cons s rest ih =>
    intro acc
    simp only [List.foldl_cons, List.map_cons, List.sum_cons]
    rw [ih, combineStep_totalExecutionTime]
    omega

lemma combineResults_totalExecutionTime (l : List TaskRec) :
    (combineResults l).totalExecutionTime = (l.map execTimeContribution).sum := by
  unfold combineResults
  simp [foldl_combineStep_totalExecutionTime]

lemma dedupKeepFirstAux_nodup (l : List String) :
    ∀ seen : List String,
      (dedupKeepFirstAux seen l).Nodup ∧
      ∀ a ∈ dedupKeepFirstAux seen l, a ∉ seen := by
  induction l with
  | nil => intro seen; simp [dedupKeepFirstAux]
  | cons a rest ih =>
    intro seen
    unfold dedupKeepFirstAux
    by_cases hmem : a ∈ seen
    · rw [if_pos hmem]
      exact ih seen
    · rw [if_neg hmem]
      obtain ⟨hnd, hout⟩ := ih (a :: seen)
      refine ⟨List.nodup_cons.mpr ⟨?_, hnd⟩, ?_⟩
      · intro hcon
        exact hout a hcon (List.mem_cons_self a seen)
      · intro b hb
        rcases List.mem_cons.mp hb with hb1 | hb2
        · rw [hb1]; exact hmem
        · intro hbseen
          exact hout b hb2 (List.mem_cons_of_mem a hbseen)

lemma dedupKeepFirst_nodup (l : List String) : (dedupKeepFirst l).Nodup :=
  (dedupKeepFirstAux_nodup l []).1

/-- C8: `mergeSubtaskResults` aggregates exactly the listed subtasks
whose status is `completed`; modified files are de-duplicated (the
result list has no duplicates), execution times of the completed
subtasks are summed, and the final summary reports `overallSuccess`
exactly when the completed count equals the number of listed subtasks,
with the completion ratio `completed/total`. -/
theorem mergeSubtaskResults_completed_only (st : Store) (pid : String)
    (parent : TaskRec) (h : List.lookup pid st.tasks = some parent) :
    ∃ out st2,
      mergeSubtaskResults st pid = .ok (out, st2) ∧
      out.mergedResults = combineResults (completedSubtasksOf st.tasks parent) ∧
      out.subtaskCount = (completedSubtasksOf st.tasks parent).length ∧
      out.mergedResults.allFilesModified.Nodup ∧
      out.mergedResults.totalExecutionTime =
        ((completedSubtasksOf st.tasks parent).map execTimeContribution).sum ∧
      (out.finalSummary.overallSuccess = true ↔
        (completedSubtasksOf st.tasks parent).length = parent.subtasks.length) ∧
      out.finalSummary.completionStatus =
        toString (completedSubtasksOf st.tasks parent).length ++ "/" ++
          toString parent.subtasks.length ++ " subtasks completed" := by
  simp only [mergeSubtaskResults, h]
  refine ⟨_, _, rfl, rfl, rfl, dedupKeepFirst_nodup _,
    combineResults_totalExecutionTime _, ?_, rfl⟩
  simp [generateFinalSummary]

def mParent : TaskRec := { id := "p", subtasks := ["s1", "s2", "s3"] }

def mStore : Store :=
  { tasks :=
      [("p", mParent),
       ("s1", { id := "s1", status := "completed",
                results := some { filesModified := ["a.js", "b.js"],
                                  executionTime := some 100 } }),
       ("s2", { id := "s2", status := "completed",
                results := some { filesModified := ["b.js"],
                                  executionTime := some 50 } }),
       ("s3", { id := "s3", status := "failed" })] }

/-- C8 witness: a parent with three listed subtasks, two completed and
one failed, merges with `overallSuccess = false`, ratio "2/3", files
de-duplicated and execution times summed. -/
theorem mergeSubtaskResults_completed_only_witness :
    ∃ out st2,
      mergeSubtaskResults mStore "p" = .ok (out, st2) ∧
      out.finalSummary.overallSuccess = false ∧
      out.finalSummary.completionStatus = "2/3 subtasks completed" ∧
      out.mergedResults.allFilesModified = ["a.js", "b.js"] ∧
      out.mergedResults.totalExecutionTime = 150 := by
  obtain ⟨out, st2, h1, h2, h3, h4, h5, h6, h7⟩ :=
    mergeSubtaskResults_completed_only mStore "p" mParent rfl
  refine ⟨out, st2, h1, ?_, ?_, ?_, ?_⟩
  · cases hb : out.finalSummary.overallSuccess
    · rfl
    · exact absurd (h6.mp hb) (by decide)
  · rw [h7]; rfl
  · rw [h2]; rfl
  · rw [h5]; rfl

/-! ## Results Merger progress query (`getTaskProgress`)

`progressPercentage` is `Math.round((completedCount /
subtaskStatuses.length) * 100)` over JS numbers.  The values reachable
here are exactly representable, with the one special case the claim is
about: `0 / 0` is `NaN` and `NaN` propagates through `* 100` and
`Math.round`.  `JsNum` models a JS number as a rational, `NaN`, or an
infinity (`c / 0` with `c ≠ 0`, unreachable here); `jsRound` is
`Math.round` (half up). -/

inductive JsNum where
  | nan
  | inf
  | val (q : ℚ)
  deriving DecidableEq, Repr

def jsDiv (a b : ℚ) : JsNum :=
  if b = 0 then (if a = 0 then .nan else .inf) else .val (a / b)

def jsMul (x : JsNum) (c : ℚ) : JsNum :=
  match x with
  | .nan => .nan
  | .inf => .inf
  | .val q => .val (q * c)

def jsRound : JsNum → JsNum
  | .nan => .nan
  | .inf => .inf
  | .val q => .val ((⌊q + 1 / 2⌋ : ℤ) : ℚ)

/-- Entry of the `subtasks` array built by `getTaskProgress`
(`{id, title, status, type}`). -/
structure StatusEntry where
  id : String
  title : String
  status : String
  type : String
  deriving DecidableEq, Repr

/-- The per-subtask status loop of `getTaskProgress`: listed ids that
do not resolve are skipped. -/
def subtaskStatusesOf (tasks : List (String × TaskRec)) (parent : TaskRec) :
    List StatusEntry :=
  parent.subtasks.filterMap (fun sid =>
    match List.lookup sid tasks with
    | some s => some ⟨s.id, s.title, s.status, s.taskType⟩
    | none => none)

structure ProgressReport where
  parentTaskId : String
  totalSubtasks : Nat
  completedSubtasks : Nat
  progressPercentage : JsNum
  subtasks : List StatusEntry
  overallStatus : String
  deriving DecidableEq, Repr

def getTaskProgress (st : Store) (parentTaskId : String) : Option ProgressReport :=
  match List.lookup parentTaskId st.tasks with
  | none => none
  | some parent =>
    let subtaskStatuses := subtaskStatusesOf st.tasks parent
    let completedCount :=
      (subtaskStatuses.filter (fun s => s.status == "completed")).length
    some
      { parentTaskId := parentTaskId
        totalSubtasks := subtaskStatuses.length
        completedSubtasks := completedCount
        progressPercentage :=
          jsRound (jsMul (jsDiv (completedCount : ℚ) (subtaskStatuses.length : ℚ)) 100)
        subtasks := subtaskStatuses
        overallStatus := parent.status }

/-- C9: on a parent whose subtasks list is empty, `getTaskProgress`
neither fails nor returns 0: the unguarded division `0 / 0` is NaN,
which survives the `* 100` and the rounding, so the report carries
`progressPercentage = NaN` (in particular not the number 0) while
`totalSubtasks` and `completedSubtasks` are 0. -/
theorem getTaskProgress_empty_subtasks_nan (st : Store) (pid : String)
    (parent : TaskRec) (h : List.lookup pid st.tasks = some parent)
    (hempty : parent.subtasks = []) :
    ∃ p, getTaskProgress st pid = some p ∧
      p.totalSubtasks = 0 ∧
      p.completedSubtasks = 0 ∧
      p.progressPercentage = JsNum.nan ∧
      p.progressPercentage ≠ JsNum.val 0 := by
  simp only [getTaskProgress, h, subtaskStatusesOf, hempty, List.filterMap_nil]
  refine ⟨_, rfl, rfl, rfl, ?_, ?_⟩ <;> simp [jsDiv, jsMul, jsRound]

def emptyParent : TaskRec := { id := "p0" }

def emptyParentStore : Store := { tasks := [("p0", emptyParent)] }

/-- C9 witness: a concrete parent with no subtasks. -/
theorem getTaskProgress_empty_subtasks_nan_witness :
    ∃ p, getTaskProgress emptyParentStore "p0" = some p ∧
      p.totalSubtasks = 0 ∧
      p.completedSubtasks = 0 ∧
      p.progressPercentage = JsNum.nan ∧
      p.progressPercentage ≠ JsNum.val 0 :=
  getTaskProgress_empty_subtasks_nan emptyParentStore "p0" emptyParent rfl rfl

/-! ## Memoizing Task Cache (`utils/cache.js`)

`createCacheKey` lower-cases and trims the description, normalises the
project context with `normalizeContext` (keys iterated in sorted order;
string **values** trimmed and lower-cased, key spelling kept verbatim),
and then feeds `JSON.stringify` of that data into sha256, keeping 16
hex characters.  Both `JSON.stringify` and the truncated sha256 are
deterministic functions of the normalised data, so two calls collide in
the cache exactly when their normalised data coincide (up to hash
collisions, which are not modelled); the cache key is therefore
identified with the hash preimage `CacheKeyData`. -/

inductive CtxVal where
  | str (s : String)
  | num (n : Int)
  | boolean (b : Bool)
  deriving DecidableEq, Repr

def normVal : CtxVal → CtxVal
  | .str s => .str (strLower (jsTrim s))
  | .num n => .num n
  | .boolean b => .boolean b

/-- Key order used by `Object.keys(context).sort()` (lexicographic on
the key strings). -/
def keyLE (a b : String × CtxVal) : Prop := a.1 ≤ b.1

instance : DecidableRel keyLE := fun a b => inferInstanceAs (Decidable (a.1 ≤ b.1))

instance : IsTotal (String × CtxVal) keyLE := ⟨fun a b => le_total a.1 b.1⟩

instance : IsTrans (String × CtxVal) keyLE := ⟨fun _ _ _ h1 h2 => le_trans h1 h2⟩

def keyLT (a b : String × CtxVal) : Prop := a.1 < b.1

instance : IsAntisymm (String × CtxVal) keyLT :=
  ⟨fun _ _ h1 h2 => absurd (h1.trans h2) (lt_irrefl _)⟩

def normPair (kv : String × CtxVal) : String × CtxVal := (kv.1, normVal kv.2)

def normalizeContext (ctx : List (String × CtxVal)) : List (String × CtxVal) :=
  (List.insertionSort keyLE ctx).map normPair

structure CacheKeyData where
  description : String
  context : List (String × CtxVal)
  deriving DecidableEq, Repr

def createCacheKey (taskDescription : String)
    (projectContext : List (String × CtxVal)) : CacheKeyData :=
  ⟨strLower (jsTrim taskDescription), normalizeContext projectContext⟩

structure CacheEntry where
  data : TaskRec
  createdAt : Nat
  accessedAt : Nat
  expiresAt : Nat
  deriving DecidableEq, Repr

structure CacheState where
  entries : List (CacheKeyData × CacheEntry) := []
  ttl : Nat := 3600000
  maxSize : Nat := 1000
  enabled : Bool := true
  deriving DecidableEq, Repr

def removeKey {κ α : Type} [BEq κ] (l : List (κ × α)) (k : κ) : List (κ × α) :=
  l.filter (fun kv => !(kv.1 == k))

/-- The LRU scan of `evictLRU`: walk the entries in insertion order,
keeping the first key whose `accessedAt` is strictly below the best so
far, starting from `Date.now()`; `none` when no entry is strictly older
than now. -/
def evictLRUPick (now : Nat) (l : List (CacheKeyData × CacheEntry)) :
    Option CacheKeyData :=
  (l.foldl
    (fun acc kv =>
      if kv.2.accessedAt < acc.1 then (kv.2.accessedAt, some kv.1) else acc)
    (now, none)).2

def evictLRU (now : Nat) (l : List (CacheKeyData × CacheEntry)) :
    List (CacheKeyData × CacheEntry) :=
  match evictLRUPick now l with
  | some k => removeKey l k
  | none => l

def cacheGet (cs : CacheState) (taskDescription : String)
    (projectContext : List (String × CtxVal)) (now : Nat) :
    Option TaskRec × CacheState :=
  if cs.enabled = false then (none, cs)
  else
    let key := createCacheKey taskDescription projectContext
    match List.lookup key cs.entries with
    | none => (none, cs)
    | some cached =>
      if cached.expiresAt < now then
        (none, { cs with entries := removeKey cs.entries key })
      else
        (some cached.data,
         { cs with entries := saveAssoc cs.entries key { cached with accessedAt := now } })

def cacheSet (cs : CacheState) (taskDescription : String)
    (projectContext : List (String × CtxVal)) (taskData : TaskRec) (now : Nat) :
    CacheState :=
  if cs.enabled = false then cs
  else
    let key := createCacheKey taskDescription projectContext
    let cached : CacheEntry := ⟨taskData, now, now, now + cs.ttl⟩
    let entries1 :=
      if cs.maxSize ≤ cs.entries.length ∧ (List.lookup key cs.entries).isNone then
        evictLRU now cs.entries
      else cs.entries
    { cs with entries := saveAssoc entries1 key cached }

/-- `cacheTaskAnalysis`: serve from the cache on a hit; otherwise run
the analysis (its already-awaited result is the `fresh` argument) and
cache it when it carries an `analysis` object. -/
def cacheTaskAnalysis (cs : CacheState) (taskDescription : String)
    (projectContext : List (String × CtxVal)) (fresh : TaskRec) (now : Nat) :
    TaskRec × CacheState :=
  match cacheGet cs taskDescription projectContext now with
  | (some cached, cs2) => (cached, cs2)
  | (none, cs2) =>
    if fresh.analysis.isSome then (fresh, cacheSet cs2 taskDescription projectContext fresh now)
    else (fresh, cs2)

/-! ### Fingerprint invariance -/

/-- Two JS values that differ only in the case of a string value. -/
def valCaseEquiv : CtxVal → CtxVal → Bool
  | .str s, .str t => strLower s == strLower t
  | .num a, .num b => a == b
  | .boolean a, .boolean b => a == b
  | _, _ => false

def entryEquiv (p q : String × CtxVal) : Prop :=
  p.1 = q.1 ∧ valCaseEquiv p.2 q.2 = true

/-- Two contexts that are equal up to reordering of their keys and
variation of the case of string values. -/
def ctxEquivUpToOrderAndCase (c1 c2 : List (String × CtxVal)) : Prop :=
  ∃ c, c1.Perm c ∧ List.Forall₂ entryEquiv c c2

lemma jsWhitespace_charLower (c : Char) :
    jsWhitespace (charLower c) = jsWhitespace c := by
  unfold charLower
  split <;> rfl

lemma jsTrimList_map_charLower (l : List Char) :
    jsTrimList (l.map charLower) = (jsTrimList l).map charLower := by
  have hpf : (jsWhitespace ∘ charLower) = jsWhitespace :=
    funext jsWhitespace_charLower
  unfold jsTrimList
  rw [List.dropWhile_map, hpf, ← List.map_reverse, List.dropWhile_map, hpf,
    ← List.map_reverse]

lemma strLower_jsTrim (s : String) :
    strLower (jsTrim s) = jsTrim (strLower s) :=
  congrArg String.mk (jsTrimList_map_charLower s.data).symm

lemma normVal_eq_of_caseEquiv {v w : CtxVal} (h : valCaseEquiv v w = true) :
    normVal v = normVal w := by
  cases v <;> cases w <;> simp [valCaseEquiv] at h <;> simp [normVal, h]
  next s t =>
    rw [strLower_jsTrim, strLower_jsTrim, h]

lemma map_normPair_eq_of_forall₂ {c c2 : List (String × CtxVal)}
    (h : List.Forall₂ entryEquiv c c2) : c.map normPair = c2.map normPair := by
  induction h with
  | nil => rfl
  | cons he _ ih =>
    obtain ⟨hk, hv⟩ := he
    simp only [List.map_cons, ih, List.cons.injEq, and_true]
    simp [normPair, hk, normVal_eq_of_caseEquiv hv]

lemma map_fst_eq_of_forall₂ {c c2 : List (String × CtxVal)}
    (h : List.Forall₂ entryEquiv c c2) : c.map Prod.fst = c2.map Prod.fst := by
  induction h with
  | nil => rfl
  | cons he _ ih => simp [he.1, ih]

lemma keys_map_normPair (l : List (String × CtxVal)) :
    (l.map normPair).map Prod.fst = l.map Prod.fst := by
  rw [List.map_map]
  rfl

lemma sorted_keyLT_of_nodup {l : List (String × CtxVal)}
    (hs : List.Sorted keyLE l) (hn : (l.map Prod.fst).Nodup) :
    List.Sorted keyLT l := by
  have hne : l.Pairwise (fun a b => a.1 ≠ b.1) := List.pairwise_map.mp hn
  exact (hs.and hne).imp (fun h => lt_of_le_of_ne h.1 h.2)

lemma normalizeContext_eq_core {c1 c2 : List (String × CtxVal)}
    (hperm : (c1.map normPair).Perm (c2.map normPair))
    (hn1 : (c1.map Prod.fst).Nodup) (hn2 : (c2.map Prod.fst).Nodup) :
    normalizeContext c1 = normalizeContext c2 := by
  unfold normalizeContext
  apply List.eq_of_perm_of_sorted (r := keyLT)
  · exact ((List.perm_insertionSort keyLE c1).map normPair).trans
      (hperm.trans (((List.perm_insertionSort keyLE c2).map normPair).symm))
  · apply sorted_keyLT_of_nodup
    · exact List.pairwise_map.mpr
        ((List.sorted_insertionSort keyLE c1).imp (fun h => h))
    · rw [keys_map_normPair]
      exact (((List.perm_insertionSort keyLE c1).map Prod.fst).nodup_iff).mpr hn1
  · apply sorted_keyLT_of_nodup
    · exact List.pairwise_map.mpr
        ((List.sorted_insertionSort keyLE c2).imp (fun h => h))
    · rw [keys_map_normPair]
      exact (((List.perm_insertionSort keyLE c2).map Prod.fst).nodup_iff).mpr hn2

lemma createCacheKey_invariant (d1 d2 : String)
    (c1 c2 : List (String × CtxVal))
    (hd : strLower (jsTrim d1) = strLower (jsTrim d2))
    (hctx : ctxEquivUpToOrderAndCase c1 c2)
    (hn : (c1.map Prod.fst).Nodup) :
    createCacheKey d1 c1 = createCacheKey d2 c2 := by
  obtain ⟨c, hp, hf⟩ := hctx
  have hkeys : (c.map Prod.fst).Nodup :=
    ((hp.map Prod.fst).nodup_iff).mp hn
  have hn2 : (c2.map Prod.fst).Nodup := by
    rw [← map_fst_eq_of_forall₂ hf]
    exact hkeys
  have hperm : (c1.map normPair).Perm (c2.map normPair) := by
    rw [← map_normPair_eq_of_forall₂ hf]
    exact hp.map normPair
  unfold createCacheKey
  rw [hd, normalizeContext_eq_core hperm hn hn2]

/-- C3 counterexample: `normalizeContext` never touches the key
spelling, so two contexts that differ only in the case of a key — equal
up to variation of string case — produce different fingerprint
payloads, hence different hash inputs. -/
theorem createCacheKey_key_case_sensitive :
    createCacheKey "analyze" [("Lang", CtxVal.str "js")] ≠
      createCacheKey "analyze" [("lang", CtxVal.str "js")] ∧
    strLower "Lang" = strLower "lang" := by
  exact ⟨by decide, rfl⟩

/-- C3 (amended): the fingerprint is invariant under reordering of the
context keys and case variation of string **values** (key spelling
stays significant), and with an identical fingerprint a repeated
`analyzeTask` call within the TTL is served from the cache: the second
call returns the task stored by the first call — whatever the second
recomputation would have produced — hence the same id. -/
theorem cache_fingerprint_and_replay :
    (∀ d1 d2 : String, ∀ c1 c2 : List (String × CtxVal),
      strLower (jsTrim d1) = strLower (jsTrim d2) →
      ctxEquivUpToOrderAndCase c1 c2 →
      (c1.map Prod.fst).Nodup →
      createCacheKey d1 c1 = createCacheKey d2 c2) ∧
    (∀ cs0 : CacheState, ∀ d1 d2 : String,
      ∀ c1 c2 : List (String × CtxVal), ∀ fresh1 fresh2 : TaskRec,
      ∀ t0 t1 : Nat,
      createCacheKey d1 c1 = createCacheKey d2 c2 →
      cs0.enabled = true →
      List.lookup (createCacheKey d1 c1) cs0.entries = none →
      fresh1.analysis.isSome = true →
      t1 ≤ t0 + cs0.ttl →
      (cacheTaskAnalysis cs0 d1 c1 fresh1 t0).1 = fresh1 ∧
      (cacheTaskAnalysis (cacheTaskAnalysis cs0 d1 c1 fresh1 t0).2
          d2 c2 fresh2 t1).1 = fresh1) := by
  refine ⟨createCacheKey_invariant, ?_⟩
  intro cs0 d1 d2 c1 c2 fresh1 fresh2 t0 t1 hk he hmiss hana htime
  have hget1 : cacheGet cs0 d1 c1 t0 = (none, cs0) := by
    unfold cacheGet
    rw [he]
    simp [hmiss]
  have hcall1 : cacheTaskAnalysis cs0 d1 c1 fresh1 t0 =
      (fresh1, cacheSet cs0 d1 c1 fresh1 t0) := by
    unfold cacheTaskAnalysis
    rw [hget1, hana]
    simp
  have hset : (cacheSet cs0 d1 c1 fresh1 t0).entries =
      saveAssoc
        (if cs0.maxSize ≤ cs0.entries.length ∧
            (List.lookup (createCacheKey d1 c1) cs0.entries).isNone then
          evictLRU t0 cs0.entries
        else cs0.entries)
        (createCacheKey d1 c1) ⟨fresh1, t0, t0, t0 + cs0.ttl⟩ := by
    unfold cacheSet
    rw [he]
    simp
  have henabled1 : (cacheSet cs0 d1 c1 fresh1 t0).enabled = true := by
    unfold cacheSet
    rw [he]
    simp
  have httl1 : (cacheSet cs0 d1 c1 fresh1 t0).ttl = cs0.ttl := by
    unfold cacheSet
    rw [he]
    simp
  have hlook : List.lookup (createCacheKey d2 c2)
      (cacheSet cs0 d1 c1 fresh1 t0).entries =
        some ⟨fresh1, t0, t0, t0 + cs0.ttl⟩ := by
    rw [hset, ← hk]
    exact lookup_saveAssoc_self _ _ _
  have hget2 : cacheGet (cacheSet cs0 d1 c1 fresh1 t0) d2 c2 t1 =
      (some fresh1,
       { cacheSet cs0 d1 c1 fresh1 t0 with
           entries := saveAssoc (cacheSet cs0 d1 c1 fresh1 t0).entries
             (createCacheKey d2 c2) ⟨fresh1, t0, t1, t0 + cs0.ttl⟩ }) := by
    unfold cacheGet
    rw [henabled1]
    simp only [Bool.true_eq_false, if_false, hlook]
    rw [if_neg (by omega), henabled1]
  constructor
  · rw [hcall1]
  · rw [hcall1]
    unfold cacheTaskAnalysis
    rw [hget2]

def freshTask : TaskRec := { id := "task-1", analysis := some ⟨1, false, []⟩ }

def otherTask : TaskRec := { id := "task-2", analysis := some ⟨1, false, []⟩ }

/-- C3 witness: a description varied in whitespace and case together
with a context whose keys are reordered and whose string value changes
case collide on the fingerprint, and the second call at the very end of
the TTL window returns the task cached by the first call. -/
theorem cache_fingerprint_and_replay_witness :
    createCacheKey " Analyze Data " [("env", CtxVal.str "Prod"), ("region", CtxVal.num 1)] =
      createCacheKey "analyze data" [("region", CtxVal.num 1), ("env", CtxVal.str "prod")] ∧
    (cacheTaskAnalysis {} " Analyze Data "
        [("env", CtxVal.str "Prod"), ("region", CtxVal.num 1)] freshTask 0).1 = freshTask ∧
    (cacheTaskAnalysis
        (cacheTaskAnalysis {} " Analyze Data "
          [("env", CtxVal.str "Prod"), ("region", CtxVal.num 1)] freshTask 0).2
        "analyze data" [("region", CtxVal.num 1), ("env", CtxVal.str "prod")]
        otherTask 3600000).1 = freshTask := by
  have hk := cache_fingerprint_and_replay.1 " Analyze Data " "analyze data"
    [("env", CtxVal.str "Prod"), ("region", CtxVal.num 1)]
    [("region", CtxVal.num 1), ("env", CtxVal.str "prod")]
    (by decide)
    ⟨[("region", CtxVal.num 1), ("env", CtxVal.str "Prod")],
      by decide,
      List.Forall₂.cons ⟨rfl, by decide⟩
        (List.Forall₂.cons ⟨rfl, by decide⟩ List.Forall₂.nil)⟩
    (by decide)
  obtain ⟨h1, h2⟩ := cache_fingerprint_and_replay.2 {} " Analyze Data " "analyze data"
    [("env", CtxVal.str "Prod"), ("region", CtxVal.num 1)]
    [("region", CtxVal.num 1), ("env", CtxVal.str "prod")]
    freshTask otherTask 0 3600000 hk rfl rfl rfl (by decide)
  exact ⟨hk, h1, h2⟩

end Boomerang
